import Mathlib

/-!
Shallow embedding of `sensepy/sense.py` (classes `SensingAlgorithm` and
`EpsilonGreedySense`) and proofs about it.

Modelling conventions:
* Python floats are modelled as `ℚ`; torch 1-D tensors of scores and numpy
  scalars become `List ℚ` / `ℚ`.
* A tensor of observed points becomes `List ℚ` (`size()[0]` is its length);
  `None` becomes `Option.none`.
* Randomness is passed in explicitly: the single `np.random.uniform(0, 1)`
  draw is a parameter `p`, and the stream of `np.random.randn()` draws is a
  function `draws : ℕ → ℚ` consumed positionally (one draw per candidate).
* Python exceptions are modelled with an error type `PyErr`.  A method that
  can raise returns its (partially) mutated state together with
  `Option PyErr`, because in Python mutations performed before the raise
  persist on the object.
* The external collaborators (the stpy process, estimator, Borel sets) are
  not part of this repository; they are modelled as parameters / a record
  whose operations follow the contracts the repository relies on.
-/

namespace Sensepy

/-- Errors a run can raise.  `runtimeError` stands for the error `torch.topk`
raises when `k` exceeds the size of the score tensor, `attributeError` for
calling `.append` on `None`, `typeError` for iterating over `None`,
`ingestError` for a failure inside the estimator's `add_data_point`,
`invalidAction` for a failure inside `process.sample`, and `notFitted` for a
mean-rate query before any fit. -/
inductive PyErr where
  | runtimeError
  | attributeError
  | typeError
  | ingestError
  | invalidAction
  | notFitted
  deriving DecidableEq, Repr

/-- An observation record, the Python triple `(action, obs, dt)` built by
`SensingAlgorithm.sense`: the sensed region, the observed points or `None`,
and the sensing duration. -/
structure DataPoint (R : Type) where
  action : R
  obs : Option (List ℚ)
  dt : ℚ
  deriving DecidableEq, Repr

/-- Model of the external `PoissonRateEstimator`, reduced to the facets the
repository reads or writes: the (optional) fitted `rate`, the `mean_set`
query, the `mean_rate` grid query, the records ingested incrementally so
far, the dataset passed to `load_data`, and a predicate saying on which
records `add_data_point` raises. -/
structure Estimator (R : Type) where
  rate : Option (ℚ → ℚ)
  meanSetF : R → ℚ
  meanRateF : R → ℕ → List ℚ
  ingested : List (DataPoint R)
  loaded : Option (List (DataPoint R))
  ingestOk : DataPoint R → Bool

/-- The estimator's incremental ingestion `add_data_point`: either raises
(as allowed by `ingestOk`) or records the data point. -/
def Estimator.add_data_point {R : Type} (e : Estimator R) (dp : DataPoint R) :
    Except PyErr (Estimator R) :=
  if e.ingestOk dp then .ok { e with ingested := e.ingested ++ [dp] }
  else .error .ingestError

/-- The estimator's bulk load `load_data`: stores the dataset handed over at
construction time. -/
def Estimator.load_data {R : Type} (e : Estimator R)
    (data : Option (List (DataPoint R))) : Estimator R :=
  { e with loaded := data }

/-- The estimator's `mean_set` query (set-integrated mean value); the source
only calls it after checking `rate is not None`. -/
def Estimator.mean_set {R : Type} (e : Estimator R) (action : R) : ℚ :=
  e.meanSetF action

/-- Modelled from the spec: the estimator's `mean_rate` grid query is an
external stpy call not in this repository; per the spec a best-estimate
query before any fit has succeeded fails with `NotFittedError`, so it
errors exactly when no fitted rate exists. -/
def Estimator.mean_rate {R : Type} (e : Estimator R) (D : R) (n : ℕ) :
    Except PyErr (List ℚ) :=
  match e.rate with
  | none => .error .notFitted
  | some _ => .ok (e.meanRateF D n)

/-- Model of `torch.argmax` on a 1-D tensor: index of the first maximal
entry (`0` on the empty tensor). -/
def argmaxIdx : List ℚ → ℕ
  | [] => 0
  | [_] => 0
  | x :: xs =>
    let j := argmaxIdx xs
    if x < xs.getD j 0 then j + 1 else 0

/-- Model of the index component of `torch.topk` on a 1-D tensor: the
positions of the `k` largest scores, in descending score order (stable on
ties).  `step` guards the `torch.topk` call so this is only used when
`k ≤ scores.length`. -/
def topkIndices (scores : List ℚ) (k : ℕ) : List ℕ :=
  ((List.range scores.length).insertionSort
    (fun i j => scores.getD j 0 ≤ scores.getD i 0)).take k

/-- The null-safe merge of one sensed observation into the round-local
points buffer `points_loc` (lines 110-113 of `sense.py`): a first non-null
observation initializes the buffer, later non-null observations are
concatenated, null observations are skipped. -/
def mergeObs (points_loc obs : Option (List ℚ)) : Option (List ℚ) :=
  match points_loc, obs with
  | none, some x => some x
  | some x, some y => some (x ++ y)
  | pl, none => pl

/-- `SensingAlgorithm.count_events` on a loaded dataset: total observed
points over records whose observation is not `None`. -/
def countEventsList {R : Type} (data : List (DataPoint R)) : ℕ :=
  data.foldl (fun total i => match i.obs with
    | none => total
    | some pts => total + pts.length) 0

/-- `SensingAlgorithm.count_events` as called on the policy's `self.data`:
iterating over `None` raises a `TypeError`. -/
def count_events {R : Type} (data : Option (List (DataPoint R))) :
    Except PyErr ℕ :=
  match data with
  | none => .error .typeError
  | some l => .ok (countEventsList l)

/-- The configuration of an `EpsilonGreedySense` instance: cost function
`w`, sensing duration `dt`, `topk`, the exploration schedule `epsilon`, and
the external estimator-fitting routine `fit_gp` invoked by
`fit_estimator`. -/
structure EGConfig (R : Type) where
  w : R → ℚ
  dt : ℚ
  topk : ℕ
  epsilon : ℕ → ℚ
  fitGp : Estimator R → Estimator R

/-- The mutable state of an `EpsilonGreedySense` instance: round counter
`t`, the owned dataset `data` (possibly `None`), and the estimator. -/
structure EGState (R : Type) where
  t : ℕ
  data : Option (List (DataPoint R))
  estimator : Estimator R

/-- `EpsilonGreedySense.__init__`: stores `initial_data` (default `None`)
as the dataset, hands it to the estimator's `load_data`, and sets `t = 0`. -/
def EGInit {R : Type} (est : Estimator R)
    (initial_data : Option (List (DataPoint R)) := none) : EGState R :=
  { t := 0, data := initial_data, estimator := est.load_data initial_data }

/-- `EpsilonGreedySense.acquisition_function`: increments `t`, draws `p`,
computes `epsilon(t)`; if `p > epsilon` and a fitted rate exists, scores
each action by `mean_set(action) / w(action)`, otherwise appends one random
draw per action.  Returns the new `t` and the score list. -/
def acquisition_function {R : Type} (cfg : EGConfig R) (est : Estimator R)
    (t : ℕ) (p : ℚ) (draws : ℕ → ℚ) (actions : List R) : ℕ × List ℚ :=
  let t' := t + 1
  let epsilon := cfg.epsilon t'
  if p > epsilon then
    match est.rate with
    | some _ => (t', actions.map (fun action => est.mean_set action / cfg.w action))
    | none => (t', (List.range actions.length).map draws)
  else
    (t', (List.range actions.length).map draws)

/-- `EpsilonGreedySense.add_data`: first the estimator's
`add_data_point`, then `self.data.append`.  If the estimator raises, the
state is returned unchanged with the error; if `self.data` is `None` the
append raises after the estimator has already ingested. -/
def add_data {R : Type} (s : EGState R) (dp : DataPoint R) :
    EGState R × Option PyErr :=
  match s.estimator.add_data_point dp with
  | .error e => (s, some e)
  | .ok est' =>
    match s.data with
    | none => ({ s with estimator := est' }, some .attributeError)
    | some l => ({ s with estimator := est', data := some (l ++ [dp]) }, none)

/-- The sensing loop of `SensingAlgorithm.step` (lines 102-113): for each
chosen action in selection order, `sense` it (the process may raise), add
the record via `add_data`, accumulate its cost, and merge its points
null-safely.  The first raised error aborts the loop; mutations already
committed persist. -/
def senseLoop {R : Type} (w : R → ℚ) (dt : ℚ)
    (sample : R → Except PyErr (Option (List ℚ))) :
    List R → EGState R → ℚ → Option (List ℚ) →
    EGState R × ℚ × Option (List ℚ) × Option PyErr
  | [], s, cost, points_loc => (s, cost, points_loc, none)
  | action :: rest, s, cost, points_loc =>
    match sample action with
    | .error e => (s, cost, points_loc, some e)
    | .ok obs =>
      let dp : DataPoint R := ⟨action, obs, dt⟩
      match add_data s dp with
      | (s', some e) => (s', cost, points_loc, some e)
      | (s', none) =>
        senseLoop w dt sample rest s' (cost + w action) (mergeObs points_loc obs)

/-- The `sensed_actions` computation of `step` (lines 91-94): when
`topk == 1` the single selected index is looked up and wrapped in a
one-element list, otherwise a list comprehension looks up every selected
index. -/
def sensedOf {R : Type} (topk : ℕ) (actions : List R) (best_indices : List ℕ) :
    List R :=
  if topk = 1 then
    match best_indices.head? with
    | some i => (actions[i]?).toList
    | none => []
  else
    best_indices.filterMap (fun i => actions[i]?)

/-- The second component of `step`'s return tuple: a point count when
`points=False`, the raw point buffer (or `None`) when `points=True`. -/
inductive StepObs where
  | count : ℕ → StepObs
  | raw : Option (List ℚ) → StepObs
  deriving DecidableEq, Repr

/-- `SensingAlgorithm.step` as executed by an `EpsilonGreedySense`
instance: fit the estimator, score the candidates, pick the top-k
(`torch.topk` raises when `topk` exceeds the score count), sense each
chosen region, and return `(cost, count-or-points, sensed_actions,
best_indices)`.  The `verbose` flag only prints and the `index` flag is
unused in the source, so neither is modelled. -/
def step {R : Type} (cfg : EGConfig R)
    (sample : R → Except PyErr (Option (List ℚ)))
    (p : ℚ) (draws : ℕ → ℚ) (s : EGState R) (actions : List R)
    (points : Bool) :
    EGState R × Except PyErr (ℚ × StepObs × List R × List ℕ) :=
  let s1 : EGState R := { s with estimator := cfg.fitGp s.estimator }
  let ts := acquisition_function cfg s1.estimator s1.t p draws actions
  let s2 : EGState R := { s1 with t := ts.1 }
  let scores := ts.2
  if cfg.topk ≤ scores.length then
    let best_indices := topkIndices scores cfg.topk
    let sensed_actions := sensedOf cfg.topk actions best_indices
    match senseLoop cfg.w cfg.dt sample sensed_actions s2 0 none with
    | (s3, _, _, some e) => (s3, .error e)
    | (s3, cost, points_loc, none) =>
      if points then
        (s3, .ok (cost, .raw points_loc, sensed_actions, best_indices))
      else
        (s3, .ok (cost, .count (match points_loc with
                                | some x => x.length
                                | none => 0), sensed_actions, best_indices))
  else
    (s2, .error .runtimeError)

/-- The observation a sample call delivers when it succeeds (`none` when it
raises); used to name the records committed by the sensing loop. -/
def obsD {R : Type} (sample : R → Except PyErr (Option (List ℚ))) (a : R) :
    Option (List ℚ) :=
  match sample a with
  | .ok o => o
  | .error _ => none

/-- `SensingAlgorithm.best_point_so_far`: discretize `D` into `n` points,
query the estimator's mean rate there, return the grid point at the argmax.
The discretization `D.return_discretization(n)` is an external Borel-set
call, passed in as `disc`. -/
def best_point_so_far {R : Type} (disc : R → ℕ → List (List ℚ))
    (s : EGState R) (D : R) (n : ℕ) : Except PyErr (List ℚ) :=
  let xx := disc D n
  match s.estimator.mean_rate D n with
  | .error e => .error e
  | .ok m => .ok (xx.getD (argmaxIdx m) [])

instance {ε α : Type} [DecidableEq ε] [DecidableEq α] :
    DecidableEq (Except ε α) := fun x y =>
  match x, y with
  | .error a, .error b =>
    if h : a = b then .isTrue (congrArg Except.error h)
    else .isFalse (fun hc => h (Except.error.inj hc))
  | .error _, .ok _ => .isFalse (fun hc => Except.noConfusion hc)
  | .ok _, .error _ => .isFalse (fun hc => Except.noConfusion hc)
  | .ok a, .ok b =>
    if h : a = b then .isTrue (congrArg Except.ok h)
    else .isFalse (fun hc => h (Except.ok.inj hc))

/-! ### Concrete instances used to exercise the theorems -/

/-- A fitted test estimator over integer-labelled regions: constant rate,
`mean_set = 3` everywhere, ingestion always succeeds. -/
def testEstFitted : Estimator ℕ :=
  { rate := some (fun _ => 1), meanSetF := fun _ => 3,
    meanRateF := fun _ _ => [], ingested := [], loaded := none,
    ingestOk := fun _ => true }

/-- The same test estimator before any fit (`rate is None`). -/
def testEstUnfit : Estimator ℕ := { testEstFitted with rate := none }

/-- A test configuration: unit costs, `dt = 1`, `topk = 1`, exploration
schedule constantly `0`, fitting leaves the estimator unchanged. -/
def cfgZero : EGConfig ℕ :=
  { w := fun _ => 1, dt := 1, topk := 1, epsilon := fun _ => 0, fitGp := id }

/-- A test policy state with an empty (but non-null) dataset. -/
def s0 : EGState ℕ := { t := 0, data := some [], estimator := testEstFitted }

/-- The test state before any fit. -/
def s0unfit : EGState ℕ := { t := 0, data := some [], estimator := testEstUnfit }

/-- A test process realization: region `1` yields one point, every other
region is rejected by the process. -/
def sampleW : ℕ → Except PyErr (Option (List ℚ)) := fun a =>
  if a = 1 then .ok (some [9]) else .error .invalidAction

/-! ### Helper lemmas about the selection, scoring and bookkeeping pieces -/

lemma topkIndices_nodup (scores : List ℚ) (k : ℕ) : (topkIndices scores k).Nodup := by
  have hperm := List.perm_insertionSort
    (fun i j => scores.getD j 0 ≤ scores.getD i 0) (List.range scores.length)
  have hnd := hperm.symm.nodup (List.nodup_range scores.length)
  exact (List.take_sublist k _).nodup hnd

lemma topkIndices_mem_lt (scores : List ℚ) (k : ℕ) :
    ∀ i ∈ topkIndices scores k, i < scores.length := by
  intro i hi
  have hperm := List.perm_insertionSort
    (fun i j => scores.getD j 0 ≤ scores.getD i 0) (List.range scores.length)
  have : i ∈ (List.range scores.length).insertionSort
      (fun i j => scores.getD j 0 ≤ scores.getD i 0) :=
    List.mem_of_mem_take hi
  exact List.mem_range.mp (hperm.mem_iff.mp this)

lemma topkIndices_length (scores : List ℚ) (k : ℕ) :
    (topkIndices scores k).length = min k scores.length := by
  have hperm := List.perm_insertionSort
    (fun i j => scores.getD j 0 ≤ scores.getD i 0) (List.range scores.length)
  simp [topkIndices, hperm.length_eq]

lemma acquisition_fst {R : Type} (cfg : EGConfig R) (est : Estimator R)
    (t : ℕ) (p : ℚ) (draws : ℕ → ℚ) (actions : List R) :
    (acquisition_function cfg est t p draws actions).1 = t + 1 := by
  by_cases hp : cfg.epsilon (t + 1) < p <;> cases h : est.rate <;>
    simp [acquisition_function, hp, h]

lemma acquisition_length {R : Type} (cfg : EGConfig R) (est : Estimator R)
    (t : ℕ) (p : ℚ) (draws : ℕ → ℚ) (actions : List R) :
    (acquisition_function cfg est t p draws actions).2.length = actions.length := by
  by_cases hp : cfg.epsilon (t + 1) < p <;> cases h : est.rate <;>
    simp [acquisition_function, hp, h]

lemma add_data_of_ingest_err {R : Type} (s : EGState R) (dp : DataPoint R)
    (e : PyErr) (h : s.estimator.add_data_point dp = .error e) :
    add_data s dp = (s, some e) := by
  simp [add_data, h]

lemma add_data_of_ingest_ok {R : Type} (s : EGState R) (dp : DataPoint R)
    (est' : Estimator R) (l : List (DataPoint R))
    (h : s.estimator.add_data_point dp = .ok est') (hl : s.data = some l) :
    add_data s dp = ({ s with estimator := est', data := some (l ++ [dp]) }, none) := by
  simp [add_data, h, hl]

lemma add_data_point_of_ok {R : Type} (e : Estimator R) (dp : DataPoint R)
    (h : e.ingestOk dp = true) :
    e.add_data_point dp = .ok { e with ingested := e.ingested ++ [dp] } := by
  simp [Estimator.add_data_point, h]

lemma add_data_point_of_fail {R : Type} (e : Estimator R) (dp : DataPoint R)
    (h : e.ingestOk dp = false) :
    e.add_data_point dp = .error .ingestError := by
  simp [Estimator.add_data_point, h]

lemma add_data_t {R : Type} (s : EGState R) (dp : DataPoint R) :
    (add_data s dp).1.t = s.t := by
  unfold add_data
  cases h : s.estimator.add_data_point dp with
  | error e => rfl
  | ok est' => cases hl : s.data <;> rfl

lemma add_data_none_some {R : Type} (s : EGState R) (dp : DataPoint R)
    (h : s.data = none) : ((add_data s dp).2).isSome = true := by
  cases he : s.estimator.add_data_point dp <;> simp [add_data, he, h]

lemma senseLoop_t {R : Type} (w : R → ℚ) (dt : ℚ)
    (sample : R → Except PyErr (Option (List ℚ))) :
    ∀ (acts : List R) (s : EGState R) (cost : ℚ) (pl : Option (List ℚ)),
      (senseLoop w dt sample acts s cost pl).1.t = s.t := by
  intro acts
  induction acts with
  | nil => intro s cost pl; rfl
  | cons a rest ih =>
    intro s cost pl
    unfold senseLoop
    cases hs : sample a with
    | error e => simp
    | ok obs =>
      have hadd := add_data_t s ⟨a, obs, dt⟩
      rcases hdp : add_data s ⟨a, obs, dt⟩ with ⟨s', err⟩
      rw [hdp] at hadd
      cases err with
      | some e =>
        simp only [hdp]
        simpa using hadd
      | none =>
        simp only [hdp]
        simpa [ih] using hadd

lemma senseLoop_cons {R : Type} (w : R → ℚ) (dt : ℚ)
    (sample : R → Except PyErr (Option (List ℚ))) (a : R) (rest : List R)
    (s : EGState R) (cost : ℚ) (pl : Option (List ℚ)) :
    senseLoop w dt sample (a :: rest) s cost pl
      = match sample a with
        | .error e => (s, cost, pl, some e)
        | .ok obs =>
          match add_data s ⟨a, obs, dt⟩ with
          | (s', some e) => (s', cost, pl, some e)
          | (s', none) => senseLoop w dt sample rest s' (cost + w a) (mergeObs pl obs) := by
  rfl

lemma senseLoop_ok_points {R : Type} (w : R → ℚ) (dt : ℚ)
    (f : R → Option (List ℚ)) :
    ∀ (acts : List R) (s : EGState R) (cost : ℚ) (pl : Option (List ℚ)),
      (senseLoop w dt (fun a => .ok (f a)) acts s cost pl).2.2.2 = none →
      (senseLoop w dt (fun a => .ok (f a)) acts s cost pl).2.2.1
        = acts.foldl (fun b a => mergeObs b (f a)) pl := by
  intro acts
  induction acts with
  | nil => intro s cost pl _; rfl
  | cons a rest ih =>
    intro s cost pl herr
    rw [senseLoop_cons] at herr ⊢
    rcases hdp : add_data s ⟨a, f a, dt⟩ with ⟨s', err⟩
    simp only [hdp] at herr ⊢
    cases err with
    | some e => simp at herr
    | none => exact ih s' (cost + w a) (mergeObs pl (f a)) herr

lemma foldl_mergeObs_all_none {R : Type} (f : R → Option (List ℚ)) :
    ∀ (acts : List R) (pl : Option (List ℚ)),
      (∀ a ∈ acts, f a = none) →
      acts.foldl (fun b a => mergeObs b (f a)) pl = pl := by
  intro acts
  induction acts with
  | nil => intro pl _; rfl
  | cons a rest ih =>
    intro pl h
    have ha : f a = none := h a (by simp)
    have hrest : ∀ x ∈ rest, f x = none := fun x hx => h x (by simp [hx])
    have hm : mergeObs pl (f a) = pl := by cases pl <;> simp [mergeObs, ha]
    simp only [List.foldl_cons, hm, ih pl hrest]

lemma filterMap_getElem_length {R : Type} (actions : List R) :
    ∀ idxs : List ℕ, (∀ i ∈ idxs, i < actions.length) →
      (idxs.filterMap (fun i => actions[i]?)).length = idxs.length := by
  intro idxs
  induction idxs with
  | nil => intro _; rfl
  | cons i rest ih =>
    intro h
    have hi : i < actions.length := h i (by simp)
    have ha : actions[i]? = some actions[i] := List.getElem?_eq_getElem hi
    have hrest := ih (fun j hj => h j (by simp [hj]))
    simp [List.filterMap_cons, ha, hrest]

lemma sensedOf_eq_filterMap {R : Type} (k : ℕ) (actions : List R)
    (scores : List ℚ) (hk : k ≤ scores.length) :
    sensedOf k actions (topkIndices scores k)
      = (topkIndices scores k).filterMap (fun i => actions[i]?) := by
  unfold sensedOf
  split
  · next h1 =>
    subst h1
    have hl : (topkIndices scores 1).length = 1 := by
      rw [topkIndices_length]; omega
    obtain ⟨i, hi⟩ := List.length_eq_one.mp hl
    rw [hi]
    cases h : actions[i]? <;> simp [h]
  · rfl

lemma countEventsList_foldl {R : Type} (l : List (DataPoint R)) (a : ℕ) :
    (l.foldl (fun total i => match i.obs with
      | none => total
      | some pts => total + pts.length) a)
      = a + (l.map (fun dp => (dp.obs.map List.length).getD 0)).sum := by
  induction l generalizing a with
  | nil => simp
  | cons hd tl ih =>
    cases h : hd.obs <;> simp [List.foldl_cons, h, ih, Nat.add_assoc]

lemma step_ok_char {R : Type} (cfg : EGConfig R)
    (sample : R → Except PyErr (Option (List ℚ)))
    (p : ℚ) (draws : ℕ → ℚ) (s : EGState R) (actions : List R) (pts : Bool)
    (r : ℚ × StepObs × List R × List ℕ)
    (h : (step cfg sample p draws s actions pts).2 = .ok r) :
    cfg.topk ≤
      (acquisition_function cfg (cfg.fitGp s.estimator) s.t p draws actions).2.length ∧
    ∃ s3 cost pl,
      senseLoop cfg.w cfg.dt sample
          (sensedOf cfg.topk actions
            (topkIndices
              (acquisition_function cfg (cfg.fitGp s.estimator) s.t p draws actions).2
              cfg.topk))
          { s with estimator := cfg.fitGp s.estimator,
                   t := (acquisition_function cfg (cfg.fitGp s.estimator)
                          s.t p draws actions).1 } 0 none
        = (s3, cost, pl, none) ∧
      r = (cost,
           if pts then StepObs.raw pl
           else StepObs.count (match pl with | some x => x.length | none => 0),
           sensedOf cfg.topk actions
             (topkIndices
               (acquisition_function cfg (cfg.fitGp s.estimator) s.t p draws actions).2
               cfg.topk),
           topkIndices
             (acquisition_function cfg (cfg.fitGp s.estimator) s.t p draws actions).2
             cfg.topk) := by
  by_cases hk : cfg.topk ≤
      (acquisition_function cfg (cfg.fitGp s.estimator) s.t p draws actions).2.length
  · refine ⟨hk, ?_⟩
    simp only [step, hk, if_true] at h
    rcases hloop : senseLoop cfg.w cfg.dt sample
        (sensedOf cfg.topk actions
          (topkIndices
            (acquisition_function cfg (cfg.fitGp s.estimator) s.t p draws actions).2
            cfg.topk))
        { s with estimator := cfg.fitGp s.estimator,
                 t := (acquisition_function cfg (cfg.fitGp s.estimator)
                        s.t p draws actions).1 } 0 none
      with ⟨s3, cost, pl, err⟩
    rw [hloop] at h
    cases err with
    | some e => simp at h
    | none =>
      refine ⟨s3, cost, pl, rfl, ?_⟩
      cases pts <;> simp at h <;> simp [← h]
  · exfalso
    simp only [step, hk, if_false] at h
    simp at h

/-! ### The claims -/

/-- C1: for a candidate list of size `m` and configured `topk = k ≤ m`, a
completed `step` returns exactly `k` chosen indices and `k` chosen regions,
the indices distinct and each in `[0, m)`, the regions being the
candidate-list entries at those positions of the list passed to this call;
the top-k selection yields `min(k, m)` indices. -/
theorem C1_step_topk {R : Type} (cfg : EGConfig R)
    (sample : R → Except PyErr (Option (List ℚ)))
    (p : ℚ) (draws : ℕ → ℚ) (s : EGState R) (actions : List R) (pts : Bool)
    (cost : ℚ) (obs : StepObs) (regs : List R) (idxs : List ℕ)
    (hk : cfg.topk ≤ actions.length)
    (h : (step cfg sample p draws s actions pts).2 = .ok (cost, obs, regs, idxs)) :
    idxs.length = cfg.topk ∧ regs.length = cfg.topk ∧ idxs.Nodup ∧
    (∀ i ∈ idxs, i < actions.length) ∧
    regs = idxs.filterMap (fun i => actions[i]?) ∧
    idxs.length = min cfg.topk actions.length := by
  obtain ⟨hguard, s3, cost', pl, hloop, hr⟩ := step_ok_char _ _ _ _ _ _ _ _ h
  have hlen : (acquisition_function cfg (cfg.fitGp s.estimator)
      s.t p draws actions).2.length = actions.length :=
    acquisition_length _ _ _ _ _ _
  simp only [Prod.mk.injEq] at hr
  obtain ⟨-, -, hregs, hidxs⟩ := hr
  subst hidxs
  have hmem : ∀ i ∈ topkIndices
      (acquisition_function cfg (cfg.fitGp s.estimator) s.t p draws actions).2
      cfg.topk, i < actions.length := by
    intro i hi
    have := topkIndices_mem_lt _ _ i hi
    omega
  have hfil := sensedOf_eq_filterMap cfg.topk actions
    (acquisition_function cfg (cfg.fitGp s.estimator) s.t p draws actions).2 hguard
  have hlength : (topkIndices
      (acquisition_function cfg (cfg.fitGp s.estimator) s.t p draws actions).2
      cfg.topk).length = cfg.topk := by
    rw [topkIndices_length, hlen]
    omega
  refine ⟨hlength, ?_, topkIndices_nodup _ _, hmem, ?_, ?_⟩
  · rw [hregs, hfil, filterMap_getElem_length actions _ hmem, hlength]
  · rw [hregs, hfil]
  · rw [hlength]
    omega

/-- Closed instance of C1: a completed one-candidate, `topk = 1` round. -/
theorem C1_step_topk_witness :
    ([0] : List ℕ).length = cfgZero.topk ∧
    ([5] : List ℕ).length = cfgZero.topk ∧ ([0] : List ℕ).Nodup ∧
    (∀ i ∈ ([0] : List ℕ), i < ([5] : List ℕ).length) ∧
    ([5] : List ℕ) = [0].filterMap (fun i => ([5] : List ℕ)[i]?) ∧
    ([0] : List ℕ).length = min cfgZero.topk ([5] : List ℕ).length :=
  C1_step_topk cfgZero (fun _ => .ok none) 1 (fun _ => 0) s0 [5] false
    1 (.count 0) [5] [0] (by decide) (by with_unfolding_all decide)

/-- C5: `count_events` totals the observed points over the dataset, a null
observation contributing `0` and an empty-but-present observation
contributing its length `0`. -/
theorem C5_count_events {R : Type} (l : List (DataPoint R)) :
    countEventsList l = (l.map (fun dp => (dp.obs.map List.length).getD 0)).sum ∧
    count_events (some l)
      = .ok ((l.map (fun dp => (dp.obs.map List.length).getD 0)).sum) := by
  have h0 : countEventsList l
      = (l.map (fun dp => (dp.obs.map List.length).getD 0)).sum := by
    simpa [countEventsList] using countEventsList_foldl l 0
  exact ⟨h0, by simp [count_events, h0]⟩

/-- C2 counterexample: with the schedule constantly `0` and a fitted rate,
the legal draw `p = 0` of `np.random.uniform(0, 1)` makes `p > epsilon`
false, so the exploration branch runs and the scores are the random draws,
not `mean/cost`. -/
theorem C2_counterexample :
    (acquisition_function cfgZero testEstFitted 0 0 (fun _ => 0) [0]).2
      ≠ [0].map (fun a => testEstFitted.mean_set a / cfgZero.w a) := by
  with_unfolding_all decide

/-- C2 (amended): with a schedule returning `0` and a fitted rate, every
draw `p` in the open interval `(0, 1)` (indeed every `p > 0`) takes the
exploitation branch, scoring each candidate by `mean_set / w`. -/
theorem C2_exploitation {R : Type} (cfg : EGConfig R) (est : Estimator R)
    (t : ℕ) (p : ℚ) (draws : ℕ → ℚ) (actions : List R) (r : ℚ → ℚ)
    (hs : cfg.epsilon (t + 1) = 0) (hr : est.rate = some r) (hp : 0 < p) :
    (acquisition_function cfg est t p draws actions).2
      = actions.map (fun a => est.mean_set a / cfg.w a) := by
  simp [acquisition_function, hs, hr, hp]

/-- Closed instance of C2 (amended) at `p = 1`. -/
theorem C2_exploitation_witness :
    (acquisition_function cfgZero testEstFitted 0 1 (fun _ => 0) [0]).2
      = [0].map (fun a => testEstFitted.mean_set a / cfgZero.w a) :=
  C2_exploitation cfgZero testEstFitted 0 1 (fun _ => 0) [0] (fun _ => 1)
    rfl rfl (by decide)

/-- C6: with no fitted rate, `acquisition_function` returns one random draw
per candidate (depending only on the random stream), for every value of the
uniform draw `p` — in particular also when the exploitation branch was
chosen under a schedule that is constantly `0`. -/
theorem C6_unfitted_random {R : Type} (cfg : EGConfig R) (est : Estimator R)
    (t : ℕ) (p : ℚ) (draws : ℕ → ℚ) (actions : List R)
    (hr : est.rate = none) :
    (acquisition_function cfg est t p draws actions).2
      = (List.range actions.length).map draws := by
  by_cases hp : cfg.epsilon (t + 1) < p <;> simp [acquisition_function, hr, hp]

/-- Closed instance of C6: exploitation branch chosen (`p = 1 > 0`), no
fitted rate, scores are the two random draws. -/
theorem C6_unfitted_random_witness :
    (acquisition_function cfgZero testEstUnfit 0 1 (fun _ => 7) [0, 0]).2
      = (List.range 2).map (fun _ => 7) :=
  C6_unfitted_random cfgZero testEstUnfit 0 1 (fun _ => 7) [0, 0] rfl

/-- C3: `add_data` runs the estimator ingestion first and the local append
second; if ingestion raises, the policy state — in particular the local
dataset — is unchanged and the error surfaces; on success with a non-null
dataset, the estimator holds the record and the dataset gets it appended. -/
theorem C3_add_data_atomic {R : Type} (s : EGState R) (dp : DataPoint R) :
    (∀ e, s.estimator.add_data_point dp = .error e → add_data s dp = (s, some e)) ∧
    (∀ est' l, s.estimator.add_data_point dp = .ok est' → s.data = some l →
      add_data s dp
        = ({ s with estimator := est', data := some (l ++ [dp]) }, none)) :=
  ⟨fun e he => add_data_of_ingest_err s dp e he,
   fun est' l he hl => add_data_of_ingest_ok s dp est' l he hl⟩

/-- Closed instance of C3: a successful `add_data` extends estimator and
dataset by the record. -/
theorem C3_add_data_atomic_witness :
    add_data s0 ⟨0, none, 1⟩
      = ({ s0 with estimator := { testEstFitted with ingested := [⟨0, none, 1⟩] },
                   data := some [⟨0, none, 1⟩] }, none) :=
  (C3_add_data_atomic s0 ⟨0, none, 1⟩).2
    { testEstFitted with ingested := [⟨0, none, 1⟩] } [] rfl rfl

lemma argmaxIdx_cons₂ (x y : ℚ) (t : List ℚ) :
    argmaxIdx (x :: y :: t)
      = if x < (y :: t).getD (argmaxIdx (y :: t)) 0
        then argmaxIdx (y :: t) + 1 else 0 := rfl

lemma argmaxIdx_spec (l : List ℚ) :
    (0 < l.length → argmaxIdx l < l.length) ∧
    (∀ j, j < l.length → l.getD j 0 ≤ l.getD (argmaxIdx l) 0) := by
  induction l with
  | nil => exact ⟨fun h => absurd h (by simp), fun j hj => absurd hj (by simp)⟩
  | cons x xs ih =>
    cases xs with
    | nil =>
      refine ⟨fun _ => by simp [argmaxIdx], fun j hj => ?_⟩
      have : j = 0 := by simpa using hj
      subst this
      simp [argmaxIdx]
    | cons y t =>
      obtain ⟨ihlt, ihmax⟩ := ih
      rw [argmaxIdx_cons₂]
      constructor
      · intro _
        split
        · have := ihlt (by simp)
          simpa using Nat.succ_lt_succ this
        · simp
      · intro j hj
        split
        · next h =>
          cases j with
          | zero => simpa using le_of_lt h
          | succ j' =>
            have := ihmax j' (by simpa using hj)
            simpa using this
        · next h =>
          push_neg at h
          cases j with
          | zero => simp
          | succ j' =>
            have := ihmax j' (by simpa using hj)
            simp only [List.getD_cons_succ, List.getD_cons_zero]
            exact le_trans this h

lemma step_t {R : Type} (cfg : EGConfig R)
    (sample : R → Except PyErr (Option (List ℚ)))
    (p : ℚ) (draws : ℕ → ℚ) (s : EGState R) (actions : List R) (pts : Bool) :
    (step cfg sample p draws s actions pts).1.t = s.t + 1 := by
  by_cases hk : cfg.topk ≤
      (acquisition_function cfg (cfg.fitGp s.estimator) s.t p draws actions).2.length
  · simp only [step, hk, if_true]
    rcases hloop : senseLoop cfg.w cfg.dt sample
        (sensedOf cfg.topk actions
          (topkIndices
            (acquisition_function cfg (cfg.fitGp s.estimator) s.t p draws actions).2
            cfg.topk))
        { s with estimator := cfg.fitGp s.estimator,
                 t := (acquisition_function cfg (cfg.fitGp s.estimator)
                        s.t p draws actions).1 } 0 none
      with ⟨s3, cost, pl, err⟩
    have hst := senseLoop_t cfg.w cfg.dt sample
        (sensedOf cfg.topk actions
          (topkIndices
            (acquisition_function cfg (cfg.fitGp s.estimator) s.t p draws actions).2
            cfg.topk))
        { s with estimator := cfg.fitGp s.estimator,
                 t := (acquisition_function cfg (cfg.fitGp s.estimator)
                        s.t p draws actions).1 } 0 none
    rw [hloop] at hst
    have hfin : s3.t = s.t + 1 := by
      simpa [acquisition_fst] using hst
    cases err with
    | some e => simpa using hfin
    | none => cases pts <;> simpa using hfin
  · simp only [step, hk, if_false]
    simp [acquisition_fst]

/-- C7: the round counter starts at `0`, every `acquisition_function` call
advances it by exactly `1`, `add_data` leaves it alone, and one `step` call
advances it by exactly `1` (through its single scoring call) on every
execution path. -/
theorem C7_round_counter {R : Type} (cfg : EGConfig R) (est : Estimator R)
    (initial_data : Option (List (DataPoint R)))
    (sample : R → Except PyErr (Option (List ℚ)))
    (t : ℕ) (p : ℚ) (draws : ℕ → ℚ) (actions : List R)
    (s : EGState R) (dp : DataPoint R) (pts : Bool) :
    (EGInit est initial_data).t = 0 ∧
    (acquisition_function cfg est t p draws actions).1 = t + 1 ∧
    (add_data s dp).1.t = s.t ∧
    (step cfg sample p draws s actions pts).1.t = s.t + 1 :=
  ⟨rfl, acquisition_fst cfg est t p draws actions, add_data_t s dp,
   step_t cfg sample p draws s actions pts⟩

/-- C8: `best_point_so_far` fails with `NotFittedError` whenever the
estimator holds no fitted rate, and otherwise returns the discretization
point whose (first-occurring) mean-rate value is maximal over the grid. -/
theorem C8_best_point {R : Type} (disc : R → ℕ → List (List ℚ))
    (s : EGState R) (D : R) (n : ℕ) :
    (s.estimator.rate = none →
       best_point_so_far disc s D n = .error .notFitted) ∧
    (∀ r, s.estimator.rate = some r →
       best_point_so_far disc s D n
         = .ok ((disc D n).getD (argmaxIdx (s.estimator.meanRateF D n)) []) ∧
       (0 < (s.estimator.meanRateF D n).length →
          argmaxIdx (s.estimator.meanRateF D n)
            < (s.estimator.meanRateF D n).length) ∧
       (∀ j < (s.estimator.meanRateF D n).length,
          (s.estimator.meanRateF D n).getD j 0
            ≤ (s.estimator.meanRateF D n).getD
                (argmaxIdx (s.estimator.meanRateF D n)) 0)) := by
  constructor
  · intro h
    simp [best_point_so_far, Estimator.mean_rate, h]
  · intro r h
    refine ⟨by simp [best_point_so_far, Estimator.mean_rate, h], ?_, ?_⟩
    · exact (argmaxIdx_spec (s.estimator.meanRateF D n)).1
    · exact fun j hj => (argmaxIdx_spec (s.estimator.meanRateF D n)).2 j hj

/-- Closed instance of C8: the query before any fit surfaces the error. -/
theorem C8_best_point_witness :
    best_point_so_far (fun _ _ => [[0]]) s0unfit 0 4 = .error .notFitted :=
  (C8_best_point (fun _ _ => [[0]]) s0unfit 0 4).1 rfl

lemma foldl_mergeObs_none_list :
    ∀ (obsl : List (Option (List ℚ))) (pl : Option (List ℚ)),
      (∀ o ∈ obsl, o = none) → obsl.foldl mergeObs pl = pl := by
  intro obsl
  induction obsl with
  | nil => intro pl _; rfl
  | cons o rest ih =>
    intro pl h
    have ho : o = none := h o (by simp)
    have hm : mergeObs pl o = pl := by cases pl <;> simp [mergeObs, ho]
    simp only [List.foldl_cons, hm]
    exact ih pl (fun x hx => h x (by simp [hx]))

/-- C4: null-safe point merge in `step`, for a round whose sensing results
are given by the pure realization `f`: if exactly one chosen region yields
non-null points, the raw-point output is that container unmodified (null
entries being skipped); if every chosen region yields null, the output is
`None` when raw points are requested and `0` otherwise. -/
theorem C4_null_safe_merge {R : Type} (cfg : EGConfig R)
    (f : R → Option (List ℚ)) (p : ℚ) (draws : ℕ → ℚ) (s : EGState R)
    (actions : List R) :
    (∀ cost out regs idxs pre pts post,
       (step cfg (fun a => .ok (f a)) p draws s actions true).2
           = .ok (cost, .raw out, regs, idxs) →
       regs.map f = pre ++ some pts :: post →
       (∀ o ∈ pre, o = none) → (∀ o ∈ post, o = none) →
       out = some pts) ∧
    (∀ cost out regs idxs,
       (step cfg (fun a => .ok (f a)) p draws s actions true).2
           = .ok (cost, .raw out, regs, idxs) →
       (∀ a ∈ regs, f a = none) → out = none) ∧
    (∀ cost cnt regs idxs,
       (step cfg (fun a => .ok (f a)) p draws s actions false).2
           = .ok (cost, .count cnt, regs, idxs) →
       (∀ a ∈ regs, f a = none) → cnt = 0) := by
  have key : ∀ (pts : Bool) (r : ℚ × StepObs × List R × List ℕ),
      (step cfg (fun a => .ok (f a)) p draws s actions pts).2 = .ok r →
      ∃ pl, r.2.1 = (if pts then StepObs.raw pl
                     else StepObs.count (match pl with
                                         | some x => x.length
                                         | none => 0)) ∧
        r.2.2.1 = sensedOf cfg.topk actions
          (topkIndices
            (acquisition_function cfg (cfg.fitGp s.estimator)
              s.t p draws actions).2 cfg.topk) ∧
        pl = (r.2.2.1.map f).foldl mergeObs none := by
    intro pts r h
    obtain ⟨hguard, s3, cost', pl, hloop, hr⟩ := step_ok_char _ _ _ _ _ _ _ _ h
    have herrnone : (senseLoop cfg.w cfg.dt (fun a => .ok (f a))
        (sensedOf cfg.topk actions
          (topkIndices
            (acquisition_function cfg (cfg.fitGp s.estimator)
              s.t p draws actions).2 cfg.topk))
        { s with estimator := cfg.fitGp s.estimator,
                 t := (acquisition_function cfg (cfg.fitGp s.estimator)
                        s.t p draws actions).1 } 0 none).2.2.2 = none := by
      rw [hloop]
    have hpts := senseLoop_ok_points cfg.w cfg.dt f _ _ 0 none herrnone
    rw [hloop] at hpts
    refine ⟨pl, ?_, ?_, ?_⟩
    · rw [hr]
    · rw [hr]
    · rw [hr]
      simp only [List.foldl_map]
      exact hpts
  refine ⟨?_, ?_, ?_⟩
  · intro cost out regs idxs pre pts post h hmap hpre hpost
    obtain ⟨pl, hob, -, hfold⟩ := key true (cost, .raw out, regs, idxs) h
    simp only [if_true] at hob
    simp only at hob hfold
    have hout : out = pl := by
      cases hob
      rfl
    rw [hout, hfold, hmap, List.foldl_append, List.foldl_cons,
        foldl_mergeObs_none_list pre none hpre]
    exact foldl_mergeObs_none_list post _ hpost
  · intro cost out regs idxs h hnone
    obtain ⟨pl, hob, -, hfold⟩ := key true (cost, .raw out, regs, idxs) h
    simp only [if_true] at hob
    simp only at hob hfold
    have hout : out = pl := by
      cases hob
      rfl
    have hmap : ∀ o ∈ regs.map f, o = none := by
      intro o ho
      obtain ⟨a, ha, rfl⟩ := List.mem_map.mp ho
      exact hnone a ha
    rw [hout, hfold, foldl_mergeObs_none_list _ none hmap]
  · intro cost cnt regs idxs h hnone
    obtain ⟨pl, hob, -, hfold⟩ := key false (cost, .count cnt, regs, idxs) h
    simp only [Bool.false_eq_true, if_false] at hob
    simp only at hob hfold
    have hmap : ∀ o ∈ regs.map f, o = none := by
      intro o ho
      obtain ⟨a, ha, rfl⟩ := List.mem_map.mp ho
      exact hnone a ha
    have hpl : pl = none := by
      rw [hfold, foldl_mergeObs_none_list _ none hmap]
    rw [hpl] at hob
    simpa using hob

/-- Closed instance of C4: a one-region round whose single region yields
the points `[9]`; the raw output is exactly that container. -/
theorem C4_null_safe_merge_witness : (some [9] : Option (List ℚ)) = some [9] :=
  (C4_null_safe_merge cfgZero (fun _ => some [9]) 0 (fun _ => 0) s0 [5]).1
    1 (some [9]) [5] [0] [] [9] []
    (by with_unfolding_all decide) rfl (by simp) (by simp)

lemma add_data_ok_shape {R : Type} (s : EGState R) (dp : DataPoint R)
    (l : List (DataPoint R)) (hok : s.estimator.ingestOk dp = true)
    (hl : s.data = some l) :
    add_data s dp
      = ({ s with
           estimator :=
             { s.estimator with ingested := s.estimator.ingested ++ [dp] },
           data := some (l ++ [dp]) }, none) :=
  add_data_of_ingest_ok s dp _ l (add_data_point_of_ok _ _ hok) hl

lemma add_data_fail_shape {R : Type} (s : EGState R) (dp : DataPoint R)
    (hno : s.estimator.ingestOk dp = false) :
    add_data s dp = (s, some .ingestError) :=
  add_data_of_ingest_err s dp _ (add_data_point_of_fail _ _ hno)

/-- C9: inside one round, the sensing loop commits each region
independently and in selection order — the final state appends, to the
dataset and to the ingested records of the estimator, exactly the records
of a processed prefix of the chosen regions; the loop reports no error only
when the prefix is everything, and the error it reports is exactly the one
raised by sensing, or by ingesting, the first unprocessed region (nothing
is caught or swallowed). -/
theorem C9_partial_commit {R : Type} (w : R → ℚ) (dt : ℚ)
    (sample : R → Except PyErr (Option (List ℚ))) :
    ∀ (acts : List R) (s : EGState R) (cost : ℚ) (pl : Option (List ℚ))
      (l : List (DataPoint R)), s.data = some l →
    ∃ pre post, acts = pre ++ post ∧
      (∀ a ∈ pre, sample a = .ok (obsD sample a) ∧
         s.estimator.ingestOk ⟨a, obsD sample a, dt⟩ = true) ∧
      (senseLoop w dt sample acts s cost pl).1.data
        = some (l ++ pre.map (fun a => ⟨a, obsD sample a, dt⟩)) ∧
      (senseLoop w dt sample acts s cost pl).1.estimator.ingested
        = s.estimator.ingested ++ pre.map (fun a => ⟨a, obsD sample a, dt⟩) ∧
      ((senseLoop w dt sample acts s cost pl).2.2.2 = none → post = []) ∧
      (∀ e, (senseLoop w dt sample acts s cost pl).2.2.2 = some e →
         ∃ a post2, post = a :: post2 ∧
           (sample a = .error e ∨
             (e = .ingestError ∧ sample a = .ok (obsD sample a) ∧
              s.estimator.ingestOk ⟨a, obsD sample a, dt⟩ = false))) := by
  intro acts
  induction acts with
  | nil =>
    intro s cost pl l hl
    refine ⟨[], [], rfl, by simp, by simpa [senseLoop] using hl,
      by simp [senseLoop], fun _ => rfl, ?_⟩
    intro e he
    exact absurd he (by simp [senseLoop])
  | cons a rest ih =>
    intro s cost pl l hl
    cases hs : sample a with
    | error e0 =>
      have hloop : senseLoop w dt sample (a :: rest) s cost pl
          = (s, cost, pl, some e0) := by
        rw [senseLoop_cons, hs]
      refine ⟨[], a :: rest, rfl, by simp, ?_, by simp [hloop], ?_, ?_⟩
      · simpa [hloop] using hl
      · intro hcontra
        rw [hloop] at hcontra
        simp at hcontra
      · intro e he
        rw [hloop] at he
        simp only [Option.some.injEq] at he
        refine ⟨a, rest, rfl, Or.inl ?_⟩
        rw [← he]
        exact hs
    | ok o =>
      have hobs : obsD sample a = o := by simp [obsD, hs]
      cases hok : s.estimator.ingestOk ⟨a, o, dt⟩ with
      | false =>
        have hloop : senseLoop w dt sample (a :: rest) s cost pl
            = (s, cost, pl, some .ingestError) := by
          rw [senseLoop_cons, hs]
          simp only [add_data_fail_shape s _ hok]
        refine ⟨[], a :: rest, rfl, by simp, ?_, by simp [hloop], ?_, ?_⟩
        · simpa [hloop] using hl
        · intro hcontra
          rw [hloop] at hcontra
          simp at hcontra
        · intro e he
          rw [hloop] at he
          simp only [Option.some.injEq] at he
          refine ⟨a, rest, rfl, Or.inr ⟨he.symm, ?_, ?_⟩⟩
          · rw [hobs]
            exact hs
          · rw [hobs]
            exact hok
      | true =>
        have hadd := add_data_ok_shape s ⟨a, o, dt⟩ l hok hl
        have hloop : senseLoop w dt sample (a :: rest) s cost pl
            = senseLoop w dt sample rest
                ({ s with
                   estimator :=
                     { s.estimator with
                       ingested := s.estimator.ingested ++ [⟨a, o, dt⟩] },
                   data := some (l ++ [⟨a, o, dt⟩]) })
                (cost + w a) (mergeObs pl o) := by
          rw [senseLoop_cons, hs]
          simp only [hadd]
        obtain ⟨pre2, post2, heq, hpre2, hdata2, hing2, hnone2, hsome2⟩ :=
          ih ({ s with
                estimator :=
                  { s.estimator with
                    ingested := s.estimator.ingested ++ [⟨a, o, dt⟩] },
                data := some (l ++ [⟨a, o, dt⟩]) })
             (cost + w a) (mergeObs pl o) (l ++ [⟨a, o, dt⟩]) rfl
        refine ⟨a :: pre2, post2, by rw [heq]; rfl, ?_, ?_, ?_, ?_, ?_⟩
        · intro x hx
          rcases List.mem_cons.mp hx with hx | hx
          · subst hx
            refine ⟨?_, ?_⟩
            · rw [hobs]
              exact hs
            · rw [hobs]
              exact hok
          · exact hpre2 x hx
        · rw [hloop, hdata2]
          simp [hobs]
        · rw [hloop, hing2]
          simp [hobs]
        · intro hnone
          rw [hloop] at hnone
          exact hnone2 hnone
        · intro e he
          rw [hloop] at he
          exact hsome2 e he

/-- Closed instance of C9: two chosen regions, the first senses one point
and commits, the second raises inside the process; the committed record
stays in the dataset and the exact error is reported. -/
theorem C9_partial_commit_witness :
    ∃ pre post, ([1, 2] : List ℕ) = pre ++ post ∧
      (∀ a ∈ pre, sampleW a = .ok (obsD sampleW a) ∧
         s0.estimator.ingestOk ⟨a, obsD sampleW a, cfgZero.dt⟩ = true) ∧
      (senseLoop cfgZero.w cfgZero.dt sampleW [1, 2] s0 0 none).1.data
        = some ([] ++ pre.map (fun a => ⟨a, obsD sampleW a, cfgZero.dt⟩)) ∧
      (senseLoop cfgZero.w cfgZero.dt sampleW [1, 2] s0 0 none).1.estimator.ingested
        = s0.estimator.ingested
            ++ pre.map (fun a => ⟨a, obsD sampleW a, cfgZero.dt⟩) ∧
      ((senseLoop cfgZero.w cfgZero.dt sampleW [1, 2] s0 0 none).2.2.2 = none
        → post = []) ∧
      (∀ e, (senseLoop cfgZero.w cfgZero.dt sampleW [1, 2] s0 0 none).2.2.2
          = some e →
        ∃ a post2, post = a :: post2 ∧
          (sampleW a = .error e ∨
            (e = .ingestError ∧ sampleW a = .ok (obsD sampleW a) ∧
             s0.estimator.ingestOk ⟨a, obsD sampleW a, cfgZero.dt⟩ = false))) :=
  C9_partial_commit cfgZero.w cfgZero.dt sampleW [1, 2] s0 0 none [] rfl

lemma senseLoop_data_none_err {R : Type} (w : R → ℚ) (dt : ℚ)
    (sample : R → Except PyErr (Option (List ℚ))) (a : R) (rest : List R)
    (s : EGState R) (cost : ℚ) (pl : Option (List ℚ))
    (h : s.data = none) :
    ((senseLoop w dt sample (a :: rest) s cost pl).2.2.2).isSome = true := by
  rw [senseLoop_cons]
  cases hs : sample a with
  | error e => simp
  | ok o =>
    have hisome := add_data_none_some s ⟨a, o, dt⟩ h
    rcases hadd : add_data s ⟨a, o, dt⟩ with ⟨s', err⟩
    rw [hadd] at hisome
    cases err with
    | some e => simp [hadd]
    | none => simp at hisome

/-- C10: constructed with the default `initial_data` (`None`), the policy
stores `None` as its dataset and passes it to the estimator bulk load;
afterwards every `add_data` raises (so does any `step` that senses at least
one region, i.e. with `topk ≥ 1`) and `count_events` raises. -/
theorem C10_null_default {R : Type} (est : Estimator R) (dp : DataPoint R) :
    (EGInit est).data = none ∧
    (EGInit est).estimator.loaded = none ∧
    ((add_data (EGInit est) dp).2).isSome = true ∧
    count_events (EGInit est).data = .error .typeError ∧
    (∀ (cfg : EGConfig R) (sample : R → Except PyErr (Option (List ℚ)))
       (p : ℚ) (draws : ℕ → ℚ) (actions : List R) (pts : Bool),
       1 ≤ cfg.topk →
       ∃ e, (step cfg sample p draws (EGInit est) actions pts).2 = .error e) := by
  refine ⟨rfl, rfl, add_data_none_some _ dp rfl, rfl, ?_⟩
  intro cfg sample p draws actions pts hk1
  by_cases hk : cfg.topk ≤
      (acquisition_function cfg (cfg.fitGp (EGInit est : EGState R).estimator)
        (EGInit est : EGState R).t p draws actions).2.length
  · have hlen : (acquisition_function cfg
        (cfg.fitGp (EGInit est : EGState R).estimator)
        (EGInit est : EGState R).t p draws actions).2.length
        = actions.length := acquisition_length _ _ _ _ _ _
    have hidxlen : (topkIndices
        (acquisition_function cfg (cfg.fitGp (EGInit est : EGState R).estimator)
          (EGInit est : EGState R).t p draws actions).2 cfg.topk).length
        = cfg.topk := by
      rw [topkIndices_length]
      omega
    have hmem : ∀ i ∈ topkIndices
        (acquisition_function cfg (cfg.fitGp (EGInit est : EGState R).estimator)
          (EGInit est : EGState R).t p draws actions).2 cfg.topk,
        i < actions.length := by
      intro i hi
      have := topkIndices_mem_lt _ _ i hi
      omega
    have hsens := sensedOf_eq_filterMap cfg.topk actions
      (acquisition_function cfg (cfg.fitGp (EGInit est : EGState R).estimator)
        (EGInit est : EGState R).t p draws actions).2 hk
    have hslen : (sensedOf cfg.topk actions
        (topkIndices
          (acquisition_function cfg (cfg.fitGp (EGInit est : EGState R).estimator)
            (EGInit est : EGState R).t p draws actions).2 cfg.topk)).length
        = cfg.topk := by
      rw [hsens, filterMap_getElem_length _ _ hmem, hidxlen]
    simp only [step, hk, if_true]
    rcases hcons : sensedOf cfg.topk actions
        (topkIndices
          (acquisition_function cfg (cfg.fitGp (EGInit est : EGState R).estimator)
            (EGInit est : EGState R).t p draws actions).2 cfg.topk)
      with _ | ⟨a, rest⟩
    · rw [hcons] at hslen
      simp at hslen
      omega
    · have herr := senseLoop_data_none_err cfg.w cfg.dt sample a rest
        ({ t := (acquisition_function cfg
                  (cfg.fitGp (EGInit est : EGState R).estimator)
                  (EGInit est : EGState R).t p draws actions).1,
           data := (EGInit est : EGState R).data,
           estimator := cfg.fitGp (EGInit est : EGState R).estimator } : EGState R)
        0 none rfl
      rcases hloopres : senseLoop cfg.w cfg.dt sample (a :: rest)
          ({ t := (acquisition_function cfg
                    (cfg.fitGp (EGInit est : EGState R).estimator)
                    (EGInit est : EGState R).t p draws actions).1,
             data := (EGInit est : EGState R).data,
             estimator := cfg.fitGp (EGInit est : EGState R).estimator } : EGState R)
          0 none
        with ⟨s3, cost, pl, err⟩
      rw [hloopres] at herr
      cases err with
      | some e => exact ⟨e, rfl⟩
      | none => simp at herr
  · refine ⟨.runtimeError, ?_⟩
    simp only [step, hk, if_false]

/-- Closed instance of C10: with the default-constructed policy (`None`
dataset), a `topk = 1` step fails. -/
theorem C10_null_default_witness :
    ∃ e, (step cfgZero (fun _ => Except.ok none) 1 (fun _ => 0)
           (EGInit testEstFitted) ([5] : List ℕ) false).2 = .error e :=
  (C10_null_default testEstFitted ⟨0, none, 1⟩).2.2.2.2
    cfgZero (fun _ => Except.ok none) 1 (fun _ => 0) [5] false (by decide)

end Sensepy
